import Mathlib

/-!
Verification of the `yikes_intenum!` enumeration generator (src/src/lib.rs).

The macro, given a type name, an underlying fixed-width integer type, and an
ordered list of `(variant name, integer literal)` pairs, emits an enum with one
case per declared variant plus an `Unknown { value, _private: Sealed }` case,
together with `Debug`, `PartialEq`, `PartialOrd`, `Ord`, `Hash`, and the three
`From` conversions.

We embed the generated code shallowly: a declaration is a list of
`(name, value)` pairs (values as naturals in the W-bit range of the underlying
type); an instance of the produced type is either a declared variant,
identified by its index in the table, or the `Unknown` case carrying a raw
value.  The `Sealed` marker carries no data and is omitted from the value
model.  Each generated impl becomes a Lean function over this model,
translated clause by clause from the macro body.
-/

namespace YikesIntEnum

/-- The declaration the macro consumes: the underlying integer width `W`
(e.g. 8 for `u8`) and the ordered `(variant name, integer literal)` table. -/
structure EnumDecl where
  width : Nat
  variants : List (String × Nat)
deriving DecidableEq

/-- Well-formed declaration: every literal fits in the underlying type,
i.e. lies in the W-bit range. -/
def EnumDecl.WF (d : EnumDecl) : Prop :=
  ∀ p ∈ d.variants, p.2 < 2 ^ d.width

/-- An instance of the produced type `$name`: one case per declared variant
(identified by its position in the table, matching the payload-free variants
the macro emits) plus the `Unknown` case carrying the raw underlying value.
The `Sealed` marker field is a zero-sized token and carries no information. -/
inductive Inst (d : EnumDecl) where
  | variant : Fin d.variants.length → Inst d
  | unknown : Nat → Inst d
deriving DecidableEq

/-- The first-match scan of `impl From<$ty> for $name`: Rust's `match value`
tries the `$value => $name::$variant` arms in declaration order and falls
through to the `other => Unknown { .. }` arm.  Returns the index of the first
table entry whose literal equals `x`, if any. -/
def findFirst (x : Nat) : (vs : List (String × Nat)) → Option (Fin vs.length)
  | [] => none
  | v :: rest =>
    if v.2 = x then some ⟨0, Nat.succ_pos rest.length⟩
    else (findFirst x rest).map fun i => ⟨i.1 + 1, Nat.succ_lt_succ i.2⟩

/-- `impl From<$ty> for $name` — construction from the underlying integer:
linear match in declaration order, first match wins, no match produces
`Unknown` holding the raw value. -/
def fromInt (d : EnumDecl) (x : Nat) : Inst d :=
  match findFirst x d.variants with
  | some i => .variant i
  | none => .unknown x

/-- `impl From<&$name> for $ty` — conversion to the underlying integer by
reference: each declared variant maps to its literal, `Unknown` to its stored
raw value. -/
def toIntRef (d : EnumDecl) : Inst d → Nat
  | .variant i => (d.variants.get i).2
  | .unknown v => v

/-- `impl From<$name> for $ty` — by-value conversion, which the macro emits
as `(&value).into()`, i.e. delegation to the by-reference conversion. -/
def toIntVal (d : EnumDecl) (a : Inst d) : Nat :=
  toIntRef d a

/-- `impl PartialEq for $name`: `$ty::from(self).eq(&$ty::from(other))` —
equality of the underlying-integer projections. -/
def beq (d : EnumDecl) (a b : Inst d) : Bool :=
  toIntRef d a == toIntRef d b

/-- `impl Ord for $name`: `$ty::from(self).cmp(&$ty::from(other))` — the
numeric comparison of the underlying-integer projections. -/
def cmp (d : EnumDecl) (a b : Inst d) : Ordering :=
  compare (toIntRef d a) (toIntRef d b)

/-- `impl PartialOrd for $name`: `Some(self.cmp(other))`. -/
def pcmp (d : EnumDecl) (a b : Inst d) : Option Ordering :=
  some (cmp d a b)

/-- `impl Hash for $name`: `$ty::from(self).hash(state)` — the hasher state
absorbs the underlying-integer projection of the instance.  The hasher is
modelled abstractly as a state type `σ` with a step function `hashInt`
absorbing one underlying-integer value. -/
def hashWith {σ : Type} (hashInt : σ → Nat → σ) (d : EnumDecl) (state : σ)
    (a : Inst d) : σ :=
  hashInt state (toIntRef d a)

/-- `impl Debug for $name`: a declared variant writes `stringify!($variant)`,
its bare name; `Unknown { value, .. }` writes `"Unknown({})"` with the value
rendered in decimal. -/
def fmtDebug (d : EnumDecl) : Inst d → String
  | .variant i => (d.variants.get i).1
  | .unknown v => "Unknown(" ++ toString v ++ ")"

/-- The scenario type of the spec and the crate's own test: an 8-bit
declaration with `Icmp = 1` and `Tcp = 6`. -/
def protoDecl : EnumDecl :=
  { width := 8, variants := [("Icmp", 1), ("Tcp", 6)] }

/-- The `Icmp` variant of the scenario type. -/
def protoIcmp : Inst protoDecl :=
  .variant ⟨0, Nat.succ_pos 1⟩

/-- If the first-match scan returns index `i`, the table entry at `i` holds
the searched value. -/
theorem findFirst_get {x : Nat} :
    ∀ {vs : List (String × Nat)} {i : Fin vs.length},
      findFirst x vs = some i → (vs.get i).2 = x := by
  intro vs
  induction vs with
  | nil => intro i h; exact absurd h (by simp [findFirst])
  | cons v rest ih =>
    intro i h
    by_cases hv : v.2 = x
    · simp only [findFirst, if_pos hv, Option.some.injEq] at h
      subst h; exact hv
    · rw [findFirst, if_neg hv] at h
      cases hr : findFirst x rest with
      | none => rw [hr] at h; simp at h
      | some j =>
        rw [hr] at h
        simp only [Option.map_some', Option.some.injEq] at h
        subst h
        exact ih hr

/-- The round trip through the table scan: projecting `fromInt d x` back to
the underlying integer recovers `x`, whichever arm of the match fired. -/
theorem toIntRef_fromInt (d : EnumDecl) (x : Nat) :
    toIntRef d (fromInt d x) = x := by
  unfold fromInt
  cases h : findFirst x d.variants with
  | none => rfl
  | some i => exact findFirst_get h

/-- If the first-match scan finds nothing, no table entry holds the searched
value. -/
theorem findFirst_none {x : Nat} :
    ∀ {vs : List (String × Nat)}, findFirst x vs = none →
      ∀ i : Fin vs.length, (vs.get i).2 ≠ x := by
  intro vs
  induction vs with
  | nil => intro _ i; exact absurd i.2 (by simp)
  | cons v rest ih =>
    intro h i
    by_cases hv : v.2 = x
    · simp [findFirst, if_pos hv] at h
    · rw [findFirst, if_neg hv] at h
      obtain ⟨iv, hip⟩ := i
      match iv with
      | 0 => exact hv
      | Nat.succ k =>
        cases hr : findFirst x rest with
        | none => exact ih hr ⟨k, Nat.lt_of_succ_lt_succ hip⟩
        | some j => rw [hr] at h; simp at h

/-- If the first-match scan returns index `i`, no earlier table entry holds
the searched value (first match wins). -/
theorem findFirst_min {x : Nat} :
    ∀ {vs : List (String × Nat)} {i : Fin vs.length}, findFirst x vs = some i →
      ∀ j : Fin vs.length, j.1 < i.1 → (vs.get j).2 ≠ x := by
  intro vs
  induction vs with
  | nil => intro i _ _ _; exact absurd i.2 (by simp)
  | cons v rest ih =>
    intro i h j hj
    by_cases hv : v.2 = x
    · simp only [findFirst, if_pos hv, Option.some.injEq] at h
      subst h
      exact absurd hj (Nat.not_lt_zero j.1)
    · rw [findFirst, if_neg hv] at h
      cases hr : findFirst x rest with
      | none => rw [hr] at h; simp at h
      | some k =>
        rw [hr] at h
        simp only [Option.map_some', Option.some.injEq] at h
        subst h
        obtain ⟨jv, hjp⟩ := j
        match jv with
        | 0 => exact hv
        | Nat.succ m =>
          exact ih hr ⟨m, Nat.lt_of_succ_lt_succ hjp⟩ (Nat.lt_of_succ_lt_succ hj)

/-- Numeric comparison of naturals reverses under operand swap
(the `Ordering` analogue of Rust's `Ordering::reverse`). -/
theorem nat_compare_swap (m n : Nat) : compare m n = (compare n m).swap := by
  rcases Nat.lt_trichotomy m n with h | h | h
  · rw [Nat.compare_eq_lt.mpr h, Nat.compare_eq_gt.mpr h]; rfl
  · subst h
    rw [Nat.compare_eq_eq.mpr rfl]; rfl
  · rw [Nat.compare_eq_gt.mpr h, Nat.compare_eq_lt.mpr h]; rfl

/-- Claim C1: for every value `x` of the underlying integer type (the full
W-bit range, whether or not `x` equals a declared variant's literal),
converting `x` to the produced type and back yields exactly `x`:
`$ty::from(&$name::from(x)) == x`. -/
theorem roundtrip_open (d : EnumDecl) (x : Nat) (_hx : x < 2 ^ d.width) :
    toIntRef d (fromInt d x) = x :=
  toIntRef_fromInt d x

/-- Witness for C1 on the scenario type: `200` is in the 8-bit range, and the
round trip through the produced type recovers `200`. -/
theorem roundtrip_open_witness :
    200 < 2 ^ protoDecl.width ∧ toIntRef protoDecl (fromInt protoDecl 200) = 200 :=
  ⟨by decide, roundtrip_open protoDecl 200 (by decide)⟩

/-- Claim C2: equality of two instances holds iff their underlying-integer
projections are equal, whatever their cases; equality is symmetric; and in
particular every declared variant compares equal (both ways) to an `Unknown`
instance carrying that variant's literal. -/
theorem eq_is_projection_eq (d : EnumDecl) :
    (∀ a b : Inst d, beq d a b = true ↔ toIntRef d a = toIntRef d b) ∧
    (∀ a b : Inst d, beq d a b = beq d b a) ∧
    (∀ i : Fin d.variants.length,
      beq d (.variant i) (.unknown (d.variants.get i).2) = true ∧
      beq d (.unknown (d.variants.get i).2) (.variant i) = true) := by
  refine ⟨fun a b => ?_, fun a b => ?_, fun i => ?_⟩
  · unfold beq
    exact beq_iff_eq
  · unfold beq
    rw [Bool.eq_iff_iff, beq_iff_eq, beq_iff_eq]
    exact eq_comm
  · exact ⟨beq_self_eq_true _, beq_self_eq_true _⟩

/-- Claim C3: construction from the underlying integer is total (a function
defined on every value) and matches the declared table in order: when it
yields a declared variant, that variant's literal equals the input and no
earlier variant's literal does (first match wins, so with duplicate literals
the earliest declared variant is produced); when it yields `Unknown`, the
carried value is exactly the raw input and no table entry matched. -/
theorem fromInt_total_first_match (d : EnumDecl) (x : Nat) :
    match fromInt d x with
    | .variant i =>
        (d.variants.get i).2 = x ∧
        ∀ j : Fin d.variants.length, j.1 < i.1 → (d.variants.get j).2 ≠ x
    | .unknown v => v = x ∧ ∀ i : Fin d.variants.length, (d.variants.get i).2 ≠ x := by
  unfold fromInt
  cases h : findFirst x d.variants with
  | none => exact ⟨rfl, findFirst_none h⟩
  | some i => exact ⟨findFirst_get h, findFirst_min h⟩

/-- Claim C4: the total-order comparison of two instances is the numeric
comparison of their underlying-integer projections; the partial comparison
always returns `some` and agrees with it (no incomparable pairs); and the
order reverses under operand swap. -/
theorem ord_is_projection_compare (d : EnumDecl) :
    (∀ a b : Inst d, cmp d a b = compare (toIntRef d a) (toIntRef d b)) ∧
    (∀ a b : Inst d, pcmp d a b = some (cmp d a b)) ∧
    (∀ a b : Inst d, cmp d a b = (cmp d b a).swap) :=
  ⟨fun _ _ => rfl, fun _ _ => rfl,
   fun a b => nat_compare_swap (toIntRef d a) (toIntRef d b)⟩

/-- Claim C5: hashing an instance feeds exactly its underlying-integer
projection to the hasher, so any two instances that compare equal drive any
hasher, from any starting state — including a state that has already absorbed
arbitrary prior input — to identical outcomes. -/
theorem hash_follows_eq {σ : Type} (hashInt : σ → Nat → σ) (d : EnumDecl)
    (a b : Inst d) (h : beq d a b = true) (state : σ) :
    hashWith hashInt d state a = hashWith hashInt d state b := by
  have h2 : toIntRef d a = toIntRef d b := by simpa [beq] using h
  unfold hashWith
  rw [h2]

/-- Witness for C5 on the scenario type: `Icmp` and `Unknown(1)` compare
equal, and from a hasher state that already absorbed prior input they hash
identically. -/
theorem hash_follows_eq_witness :
    beq protoDecl protoIcmp (.unknown 1) = true ∧
    hashWith (fun s n => s * 256 + n) protoDecl 37 protoIcmp =
      hashWith (fun s n => s * 256 + n) protoDecl 37 (.unknown 1) :=
  ⟨by decide,
   hash_follows_eq (fun s n => s * 256 + n) protoDecl protoIcmp (.unknown 1)
     (by decide) 37⟩

/-- Claim C6: a declared variant renders as exactly its bare name and an
`Unknown` instance carrying `v` renders as the template `Unknown(<value>)`
with `v` in decimal; on the scenario type, `from(1)` renders `Icmp`,
`from(6)` renders `Tcp`, and `from(200)` renders `Unknown(200)`. -/
theorem debug_format (d : EnumDecl) :
    (∀ i : Fin d.variants.length, fmtDebug d (.variant i) = (d.variants.get i).1) ∧
    (∀ v : Nat, fmtDebug d (.unknown v) = "Unknown(" ++ toString v ++ ")") ∧
    fmtDebug protoDecl (fromInt protoDecl 1) = "Icmp" ∧
    fmtDebug protoDecl (fromInt protoDecl 6) = "Tcp" ∧
    fmtDebug protoDecl (fromInt protoDecl 200) = "Unknown(200)" :=
  ⟨fun _ => rfl, fun _ => rfl, rfl, rfl, rfl⟩

/-- Claim C9: the by-value conversion to the underlying integer agrees with
the by-reference conversion on every instance (the by-value form is emitted
as delegation to the by-reference form). -/
theorem toIntVal_eq_toIntRef (d : EnumDecl) (a : Inst d) :
    toIntVal d a = toIntRef d a := rfl

/-- Claim C10: the round trip on the closed side holds up to the type's own
equality: converting any instance to its underlying integer and back yields
an instance that compares equal to it, even though the resulting case tag can
differ — on the scenario type, `Unknown(1)` maps back to the `Icmp` variant,
a different case of the same numeric value. -/
theorem roundtrip_closed (d : EnumDecl) (a : Inst d) :
    beq d (fromInt d (toIntRef d a)) a = true ∧
    (fromInt protoDecl (toIntRef protoDecl (Inst.unknown 1)) = protoIcmp ∧
      Inst.unknown 1 ≠ protoIcmp) :=
  ⟨by unfold beq; rw [toIntRef_fromInt]; exact beq_self_eq_true _,
   by decide, by decide⟩

end YikesIntEnum
